import Mathlib

/-!
Shallow embedding of the WeJH-Go funnel dispatch layer.

The embedded code:
- `funnelServices.FetchHandleOfPost` (current revision, the one without the
  per-call 413 retry): single-node mode and hedged mode, including the
  preferred-host reordering, the empty-candidate check, and the
  result-consuming loop that drives circuit-breaker feedback.
- `funnelServices.singleHostRequest` (current revision): one outbound call,
  no retry, with the pre-call cancellation check.
- `circuitBreaker.randomLB`: the load-balancer pool (`list`, `Pick`, `Add`,
  `Remove`, `ReBalance`, `newRandomLB`) and `LoadBalance.List`.

Go slices that may be nil are modelled as `Option (List String)` with
`none` playing the role of a nil slice. The opaque `interface&#123;&#125;` payload is
a type parameter `α`. The per-candidate network outcome is modelled as
`Option (Option (FunnelResponse α))`: `none` is a transport failure of
`PostForm`, `some none` is a JSON decode failure, `some (some rc)` is a
decoded envelope. Randomness (`fastrand.Intn`) and the scheduler's delivery
order on the result channel are explicit parameters.
-/

namespace WeJHGo

/-- Login types from `funnelApi.LoginType`. -/
inductive LoginType where
  | Oauth
  | ZF
  | Unknown
deriving DecidableEq

/-- The `apiException` error values used by the dispatch layer. -/
inductive ApiError where
  | ServerError
  | NoThatPasswordOrWrong
  | OAuthNotUpdate
  | NoApiAvailable
  | RequestError
deriving DecidableEq

/-- The funnel protocol business codes (`funnelCode*` constants). -/
def funnelCodeSuccess : Int := 200

def funnelCodeInvalidArgs : Int := 410

def funnelCodeWrongPassword : Int := 412

def funnelCodeCaptchaFailed : Int := 413

def funnelCodeSessionExpired : Int := 414

def funnelCodeOauthError : Int := 415

def funnelCodeOAuthNotUpdate : Int := 416

/-- Structure `FunnelResponse`: the canonical response envelope of a funnel node. -/
structure FunnelResponse (α : Type) where
  code : Int
  msg : String
  data : α
deriving DecidableEq

/-- Errors `singleHostRequest` can return: `ctx.Err()` after cancellation
(`context.Canceled`), or `apiException.RequestError` for a transport or
decode failure. -/
inductive CallErr where
  | canceled
  | requestError
deriving DecidableEq

/-- Return value of `singleHostRequest`: a decoded envelope or an error. -/
inductive SHROut (α : Type) where
  | resp (rc : FunnelResponse α)
  | err (e : CallErr)
deriving DecidableEq

/-- Function `singleHostRequest` (current revision): check the cancellation signal;
if already cancelled return `ctx.Err()` with no call; otherwise perform one
`PostForm` call and one decode. The second component counts outbound
`PostForm` calls. `wire` is the network outcome: `none` a transport
failure, `some none` a decode failure, `some (some rc)` a decoded
envelope. -/
def singleHostRequest {α : Type} (ctxDone : Bool)
    (wire : Option (Option (FunnelResponse α))) : SHROut α × Nat :=
  if ctxDone then (.err .canceled, 0)
  else
    match wire with
    | none => (.err .requestError, 1)
    | some none => (.err .requestError, 1)
    | some (some rc) => (.resp rc, 1)

/-- Helper for `strContains`: does `needle` occur inside the haystack? -/
def strContainsAux (needle : List Char) : List Char → Bool
  | [] => needle.isEmpty
  | c :: rest => needle.isPrefixOf (c :: rest) || strContainsAux needle rest

/-- Embedding of `strings.Contains s sub`. -/
def strContains (s sub : String) : Bool :=
  strContainsAux sub.toList s.toList

/-- One result delivered on the hedge result channel. When `err` is `some`,
`rc` is the zero-value envelope, mirroring the Go struct. -/
structure HResult (α : Type) where
  host : String
  rc : FunnelResponse α
  err : Option CallErr
deriving DecidableEq

/-- A circuit-breaker mutation performed by the consuming loop. -/
inductive CBAction where
  | fail (host : String)
  | success (host : String)
deriving DecidableEq

/-- Is this action a `CB.Success` call? -/
def CBAction.isSuccessCall : CBAction → Bool
  | .fail _ => false
  | .success _ => true

/-- Result of the consuming loop `for r := range resultCh`: the
circuit-breaker calls made, whether `cancel()` was triggered, the results
left unconsumed on the channel, and the value returned to the caller
(`Sum.inl` the data of a 200, `Sum.inr` the error). -/
structure ConsumeOut (α : Type) where
  acts : List CBAction
  cancelFired : Bool
  remaining : List (HResult α)
  outcome : α ⊕ ApiError
deriving DecidableEq

/-- The consuming loop of the hedged branch of `FetchHandleOfPost`
(current revision): skip results whose error is `context.Canceled`; treat
other errors and non-terminal codes as node failures (`CB.Fail`, remember
`ServerError` as the first pending error, continue); on the first 200, 412
or 416 mark the node `CB.Success`, `cancel()`, and return at once; when the
channel is exhausted return the pending error, or `ServerError` if none
was recorded. -/
def hedgeConsume {α : Type} : List (HResult α) → Option ApiError → ConsumeOut α
  | [], firstErr => ⟨[], false, [], .inr (firstErr.getD .ServerError)⟩
  | r :: rest, firstErr =>
    match r.err with
    | some e =>
      if e = .canceled then hedgeConsume rest firstErr
      else
        let o := hedgeConsume rest (some (firstErr.getD .ServerError))
        ⟨.fail r.host :: o.acts, o.cancelFired, o.remaining, o.outcome⟩
    | none =>
      if r.rc.code = funnelCodeSuccess then
        ⟨[.success r.host], true, rest, .inl r.rc.data⟩
      else if r.rc.code = funnelCodeWrongPassword then
        ⟨[.success r.host], true, rest, .inr .NoThatPasswordOrWrong⟩
      else if r.rc.code = funnelCodeOAuthNotUpdate then
        ⟨[.success r.host], true, rest, .inr .OAuthNotUpdate⟩
      else
        let o := hedgeConsume rest (some (firstErr.getD .ServerError))
        ⟨.fail r.host :: o.acts, o.cancelFired, o.remaining, o.outcome⟩

/-- A result is terminal when it carries a decoded envelope whose code is
200, 412 or 416. -/
def isTerminal {α : Type} (r : HResult α) : Bool :=
  r.err = none &&
    (r.rc.code = funnelCodeSuccess || r.rc.code = funnelCodeWrongPassword ||
      r.rc.code = funnelCodeOAuthNotUpdate)

/-- The `idx := -1; for i, h := range hosts ...` search loop of
`FetchHandleOfPost`, as an optional first index. -/
def findIdxLoop : List String → String → Option Nat
  | [], _ => none
  | h :: t, host => if h = host then some 0 else (findIdxLoop t host).map (· + 1)

/-- The preferred-host reordering of `FetchHandleOfPost` (current
revision): an absent preferred host is prepended; a present one at a
positive index is swapped with the element at index 0. -/
def orderHosts (host : String) (hosts : List String) : List String :=
  if host = "" then hosts
  else
    match findIdxLoop hosts host with
    | none => host :: hosts
    | some idx =>
      if idx = 0 then hosts
      else (hosts.set idx (hosts.headD "")).set 0 host

/-- Result of the hedged branch: the candidate hosts to which concurrent
calls are issued (empty when the branch fails fast with
`NoApiAvailable`), the circuit-breaker calls made, and the outcome. -/
structure HedgeOut (α : Type) where
  candidates : List String
  acts : List CBAction
  outcome : α ⊕ ApiError
deriving DecidableEq

/-- The hedged branch of `FetchHandleOfPost` (current revision): reorder
the snapshot around the preferred host, fail fast with `NoApiAvailable`
when the candidate list is empty, otherwise fan out to every candidate and
run the consuming loop over the delivered results. -/
def hedgedDispatch {α : Type} (snapshot : List String) (host : String)
    (results : List (HResult α)) : HedgeOut α :=
  let hosts := orderHosts host snapshot
  if hosts.length = 0 then ⟨[], [], .inr .NoApiAvailable⟩
  else
    let o := hedgeConsume results none
    ⟨hosts, o.acts, o.outcome⟩

/-- Function `FetchHandleOfPost` (current revision). A non-ZF api (its identifier
does not contain the substring "zf") runs the single-node branch: one
`singleHostRequest` with a background (never cancelled) context against
the caller-supplied host, any call error mapped to `ServerError`, then the
200/412/416/default switch; no circuit-breaker interaction. A ZF api runs
the hedged branch over the pool snapshot. -/
def FetchHandleOfPost {α : Type} (api host : String) (snapshot : List String)
    (wire : Option (Option (FunnelResponse α))) (results : List (HResult α)) :
    HedgeOut α :=
  if strContains api "zf" = false then
    match (singleHostRequest false wire).1 with
    | .err _ => ⟨[host], [], .inr .ServerError⟩
    | .resp rc =>
      if rc.code = funnelCodeSuccess then ⟨[host], [], .inl rc.data⟩
      else if rc.code = funnelCodeWrongPassword then
        ⟨[host], [], .inr .NoThatPasswordOrWrong⟩
      else if rc.code = funnelCodeOAuthNotUpdate then
        ⟨[host], [], .inr .OAuthNotUpdate⟩
      else ⟨[host], [], .inr .ServerError⟩
  else hedgedDispatch snapshot host results

/-- Structure `circuitBreaker.randomLB`: the mutex is irrelevant in the pure model. -/
structure RandomLB where
  Api : List String
  Size : Nat
deriving DecidableEq

/-- Constructor `newRandomLB`. -/
def newRandomLB (apis : List String) : RandomLB :=
  ⟨apis, apis.length⟩

/-- Method `randomLB.list`: return nil when the pool is empty, otherwise a fresh
slice of length `Size` filled by `copy` from `Api` (zero-value padded when
`Size` exceeds the backing slice, which the size invariant rules out). -/
def RandomLB.list (b : RandomLB) : Option (List String) :=
  if b.Size = 0 then none
  else some (b.Api.take b.Size ++ List.replicate (b.Size - b.Api.length) "")

/-- Method `randomLB.Pick`: empty pool gives the empty string; a single-element
pool gives `Api[0]`; otherwise `Api[fastrand.Intn(Size)]`, the random draw
`r` passed in explicitly. -/
def RandomLB.Pick (b : RandomLB) (r : Nat) : String :=
  if b.Size = 0 then ""
  else if b.Size = 1 then b.Api.getD 0 ""
  else b.Api.getD r ""

/-- Method `randomLB.ReBalance`. -/
def RandomLB.ReBalance (_b : RandomLB) (apis : List String) : RandomLB :=
  ⟨apis, apis.length⟩

/-- Method `randomLB.Add` (variadic). -/
def RandomLB.Add (b : RandomLB) (apis : List String) : RandomLB :=
  ⟨b.Api ++ apis, (b.Api ++ apis).length⟩

/-- The removal loop of `randomLB.Remove`: delete the first occurrence and
break. -/
def removeLoop : List String → String → List String
  | [], _ => []
  | s :: rest, api => if s = api then rest else s :: removeLoop rest api

/-- Method `randomLB.Remove`: run the removal loop, then set `Size` to the new
length. -/
def RandomLB.Remove (b : RandomLB) (api : String) : RandomLB :=
  ⟨removeLoop b.Api api, (removeLoop b.Api api).length⟩

/-- Method `randomLB.isAvailable`. -/
def RandomLB.isAvailable (b : RandomLB) : Bool :=
  b.Size != 0

/-- The size invariant of `randomLB`: `Size` mirrors `len(Api)`. -/
def sizeInv (b : RandomLB) : Prop :=
  b.Size = b.Api.length

instance (b : RandomLB) : Decidable (sizeInv b) :=
  Nat.decEq b.Size b.Api.length

/-- Structure `circuitBreaker.LoadBalance`: two pools, either possibly nil. -/
structure LoadBalance where
  zfLB : Option RandomLB
  oauthLB : Option RandomLB
deriving DecidableEq

/-- Method `LoadBalance.List`: Oauth selects the OAuth pool, every other login
type the ZF pool; a nil pool yields a nil snapshot. -/
def LoadBalance.List (lb : LoadBalance) (loginType : LoginType) :
    Option (List String) :=
  match loginType with
  | .Oauth =>
    match lb.oauthLB with
    | none => none
    | some b => b.list
  | _ =>
    match lb.zfLB with
    | none => none
    | some b => b.list


/-! Helper lemmas. -/

theorem hedgeConsume_outcome_nonterminal {α : Type} (results : List (HResult α))
    (firstErr : Option ApiError)
    (h : ∀ r ∈ results, isTerminal r = false) :
    (hedgeConsume results firstErr).outcome = .inr (firstErr.getD .ServerError) := by
  induction results generalizing firstErr with
  | nil => simp [hedgeConsume]
  | cons r rest ih =>
    have hr : isTerminal r = false := h r (List.mem_cons_self r rest)
    have hrest : ∀ x ∈ rest, isTerminal x = false :=
      fun x hx => h x (List.mem_cons_of_mem r hx)
    cases hre : r.err with
    | some e =>
      cases e with
      | canceled => simpa [hedgeConsume, hre] using ih _ hrest
      | requestError =>
        simpa [hedgeConsume, hre] using ih _ hrest
    | none =>
      simp [isTerminal, hre] at hr
      obtain ⟨⟨h1, h2⟩, h3⟩ := hr
      simpa [hedgeConsume, hre, h1, h2, h3] using ih _ hrest

/-! Claim theorems. -/

/-- C2: in hedged mode, a result whose error is exactly the shared
cancellation signal (`context.Canceled`) is skipped by the consuming
loop: no `CircuitBreaker.Fail` is issued for that node and the whole
dispatch outcome — actions, cancellation, remaining results and return
value — is as if that result had never been delivered. -/
theorem canceled_result_no_cb_effect {α : Type} (c : HResult α)
    (rest : List (HResult α)) (firstErr : Option ApiError)
    (hc : c.err = some CallErr.canceled) :
    hedgeConsume (c :: rest) firstErr = hedgeConsume rest firstErr := by
  simp [hedgeConsume, hc]

theorem canceled_result_no_cb_effect_witness :
    (⟨"A", ⟨0, "", 0⟩, some CallErr.canceled⟩ : HResult Nat).err
        = some CallErr.canceled ∧
    hedgeConsume ((⟨"A", ⟨0, "", 0⟩, some CallErr.canceled⟩ : HResult Nat)
        :: [⟨"B", ⟨200, "", 5⟩, none⟩]) none
      = hedgeConsume ([⟨"B", ⟨200, "", 5⟩, none⟩] : List (HResult Nat)) none :=
  ⟨rfl, canceled_result_no_cb_effect _ _ _ rfl⟩

/-- C3 (amended): when the healthy-node snapshot is empty and no preferred
node is supplied, the hedged branch returns `NoApiAvailable` and issues no
outbound call (empty candidate set). With a non-empty preferred node the
branch instead prepends it and proceeds — see the counterexample. -/
theorem empty_snapshot_no_preferred_fails_fast {α : Type}
    (results : List (HResult α)) :
    hedgedDispatch [] "" results = ⟨[], [], .inr .NoApiAvailable⟩ := by
  simp [hedgedDispatch, orderHosts]

/-- C3 (counterexample): with an empty snapshot but a non-empty preferred
node, the preferred node is prepended before the emptiness check, so the
dispatcher issues a call to it and does not return `NoApiAvailable`. -/
theorem empty_snapshot_with_preferred_calls_out :
    (hedgedDispatch ([] : List String) "A" ([] : List (HResult Nat))).candidates
        = ["A"] ∧
    (hedgedDispatch ([] : List String) "A" ([] : List (HResult Nat))).outcome
        ≠ .inr .NoApiAvailable := by
  decide

/-- C4: if every delivered result is non-terminal (an error, or a code
other than 200, 412 and 416), the consuming loop returns the generic
`ServerError` — the pending error recorded at the first failure, or the
final fallback when none was recorded — never an absent error. -/
theorem all_nonterminal_returns_server_error {α : Type}
    (results : List (HResult α))
    (h : ∀ r ∈ results, isTerminal r = false) :
    (hedgeConsume results none).outcome = .inr .ServerError :=
  hedgeConsume_outcome_nonterminal results none h

theorem all_nonterminal_returns_server_error_witness :
    (∀ r ∈ ([⟨"A", ⟨0, "", 0⟩, some CallErr.requestError⟩,
             ⟨"B", ⟨413, "", 0⟩, none⟩] : List (HResult Nat)),
        isTerminal r = false) ∧
    (hedgeConsume ([⟨"A", ⟨0, "", 0⟩, some CallErr.requestError⟩,
             ⟨"B", ⟨413, "", 0⟩, none⟩] : List (HResult Nat)) none).outcome
        = .inr .ServerError :=
  ⟨by decide, all_nonterminal_returns_server_error _ (by decide)⟩

/-- C5: the current-revision `singleHostRequest` never retries: with a
background (never cancelled) context — the situation of every non-hedged
dispatch — it performs exactly one outbound `PostForm` call whatever the
wire outcome or envelope code (413 included), and in general it performs
at most one call (zero only when the shared context was already
cancelled before the call). -/
theorem singleHostRequest_no_retry {α : Type}
    (wire : Option (Option (FunnelResponse α))) (ctxDone : Bool) :
    (singleHostRequest false wire).2 = 1 ∧
    (singleHostRequest ctxDone wire).2 ≤ 1 := by
  constructor
  · cases wire with
    | none => rfl
    | some w => cases w <;> rfl
  · cases ctxDone with
    | true => simp [singleHostRequest]
    | false =>
      cases wire with
      | none => simp [singleHostRequest]
      | some w => cases w <;> simp [singleHostRequest]

/-- C8 (counterexample): on an empty pool, `randomLB.list` returns a nil
slice (`none` in the model), not a non-nil empty slice. -/
theorem list_empty_pool_returns_nil :
    RandomLB.list (newRandomLB []) = none ∧
    RandomLB.list (newRandomLB []) ≠ some [] := by
  decide

/-- C8 (amended): under the size invariant, `randomLB.list` returns (a
fresh copy of) exactly the current membership sequence, and on an empty
pool it returns a nil (length-zero) slice rather than a non-nil empty
one. In the pure model the returned snapshot is a value, so later pool
mutations cannot alter it. -/
theorem list_returns_membership_copy (b : RandomLB) (hb : sizeInv b) :
    b.list = if b.Api.isEmpty then none else some b.Api := by
  unfold RandomLB.list
  unfold sizeInv at hb
  rw [hb]
  cases hA : b.Api with
  | nil => simp
  | cons a t => simp

theorem list_returns_membership_copy_witness :
    sizeInv (⟨["A", "B"], 2⟩ : RandomLB) ∧
    RandomLB.list ⟨["A", "B"], 2⟩
      = if (["A", "B"] : List String).isEmpty then none else some ["A", "B"] :=
  ⟨by decide, list_returns_membership_copy ⟨["A", "B"], 2⟩ (by decide)⟩

/-- Helper: the removal loop is the identity when the element is absent. -/
theorem removeLoop_of_not_mem {l : List String} {x : String} (h : x ∉ l) :
    removeLoop l x = l := by
  induction l with
  | nil => rfl
  | cons a t ih =>
    have hax : a ≠ x := fun hax => h (hax ▸ List.mem_cons_self a t)
    have ht : x ∉ t := fun hx => h (List.mem_cons_of_mem a hx)
    simp [removeLoop, hax, ih ht]

/-- Helper: the removal loop deletes exactly the first occurrence. -/
theorem removeLoop_of_mem {l : List String} {x : String} (h : x ∈ l) :
    ∃ p q, l = p ++ x :: q ∧ x ∉ p ∧ removeLoop l x = p ++ q := by
  induction l with
  | nil => simp at h
  | cons a t ih =>
    by_cases hax : a = x
    · exact ⟨[], t, by simp [hax], by simp, by simp [removeLoop, hax]⟩
    · have ht : x ∈ t := by
        rcases List.mem_cons.mp h with h' | h'
        · exact absurd h'.symm hax
        · exact h'
      obtain ⟨p, q, hpq, hxp, hrl⟩ := ih ht
      refine ⟨a :: p, q, by simp [hpq], ?_, by simp [removeLoop, hax, hrl]⟩
      intro hx
      rcases List.mem_cons.mp hx with h' | h'
      · exact hax h'.symm
      · exact hxp h'

/-- C9: under the size invariant, `randomLB.Remove` of an absent address
is a no-op on both membership and count, and removing a present address
(even a duplicated one) deletes exactly the first occurrence, keeping
every other element in its original relative order and updating the count
accordingly. -/
theorem remove_first_occurrence (b : RandomLB) (api : String)
    (hb : sizeInv b) :
    (api ∉ b.Api → b.Remove api = b) ∧
    (api ∈ b.Api → ∃ p q, b.Api = p ++ api :: q ∧ api ∉ p ∧
      (b.Remove api).Api = p ++ q ∧
      (b.Remove api).Size = p.length + q.length) := by
  constructor
  · intro hmem
    unfold RandomLB.Remove
    unfold sizeInv at hb
    rw [removeLoop_of_not_mem hmem]
    cases b with
    | mk Api Size => simp at hb ⊢; omega
  · intro hmem
    obtain ⟨p, q, hpq, hxp, hrl⟩ := removeLoop_of_mem hmem
    exact ⟨p, q, hpq, hxp, by simp [RandomLB.Remove, hrl],
      by simp [RandomLB.Remove, hrl]⟩

theorem remove_first_occurrence_witness :
    RandomLB.Remove ⟨["C"], 1⟩ "A" = ⟨["C"], 1⟩ :=
  (remove_first_occurrence ⟨["C"], 1⟩ "A" (by decide)).1 (by decide)

/-- C10: the `randomLB` size invariant `Size = len(Api)` holds after
construction and after every `Add`, `Remove` and `ReBalance` (each resets
`Size` to the new length); consequently `Pick` on a non-empty pool, with
the random draw in range, indexes within bounds and returns a member of
the current membership, while `Pick` on an empty pool returns the empty
string. -/
theorem randomLB_size_invariant :
    (∀ apis, sizeInv (newRandomLB apis)) ∧
    (∀ (b : RandomLB) apis, sizeInv (b.Add apis)) ∧
    (∀ (b : RandomLB) apis, sizeInv (b.ReBalance apis)) ∧
    (∀ (b : RandomLB) api, sizeInv (b.Remove api)) ∧
    (∀ (b : RandomLB) r, sizeInv b → b.Size ≠ 0 → r < b.Size →
      b.Pick r ∈ b.Api) ∧
    (∀ (b : RandomLB) r, b.Size = 0 → b.Pick r = "") := by
  refine ⟨fun apis => rfl, fun b apis => rfl, fun b apis => rfl,
    fun b api => rfl, ?_, ?_⟩
  · intro b r hb h0 hr
    unfold sizeInv at hb
    unfold RandomLB.Pick
    rw [if_neg h0]
    by_cases h1 : b.Size = 1
    · rw [if_pos h1]
      have hlen : 0 < b.Api.length := by omega
      rw [List.getD_eq_getElem b.Api "" hlen]
      exact List.getElem_mem hlen
    · rw [if_neg h1]
      have hlen : r < b.Api.length := by omega
      rw [List.getD_eq_getElem b.Api "" hlen]
      exact List.getElem_mem hlen
  · intro b r h0
    unfold RandomLB.Pick
    rw [if_pos h0]

theorem randomLB_size_invariant_witness :
    sizeInv (newRandomLB ["A", "B"]) ∧
    sizeInv (RandomLB.Add ⟨["A"], 1⟩ ["B", "C"]) ∧
    sizeInv (RandomLB.ReBalance ⟨["A"], 1⟩ ["B", "C"]) ∧
    sizeInv (RandomLB.Remove ⟨["A", "B"], 2⟩ "A") ∧
    RandomLB.Pick ⟨["A", "B"], 2⟩ 1 ∈ (["A", "B"] : List String) ∧
    RandomLB.Pick ⟨[], 0⟩ 0 = "" := by
  refine ⟨randomLB_size_invariant.1 _, randomLB_size_invariant.2.1 _ _,
    randomLB_size_invariant.2.2.1 _ _, randomLB_size_invariant.2.2.2.1 _ _,
    randomLB_size_invariant.2.2.2.2.1 _ 1 (by decide) (by decide) (by decide),
    randomLB_size_invariant.2.2.2.2.2 _ 0 (by decide)⟩

/-- Helper: the index search loop fails exactly on absent elements. -/
theorem findIdxLoop_eq_none {l : List String} {x : String} :
    findIdxLoop l x = none ↔ x ∉ l := by
  induction l with
  | nil => simp [findIdxLoop]
  | cons a t ih =>
    by_cases hax : a = x
    · subst hax
      simp [findIdxLoop]
    · simp only [findIdxLoop, if_neg hax, Option.map_eq_none', ih,
        List.mem_cons]
      constructor
      · intro h hc
        rcases hc with rfl | hx
        · exact hax rfl
        · exact h hx
      · intro h hx
        exact h (Or.inr hx)

/-- Helper: a found index points at the searched element. -/
theorem findIdxLoop_getElem {l : List String} {x : String} {i : Nat}
    (h : findIdxLoop l x = some i) : l[i]? = some x := by
  induction l generalizing i with
  | nil => simp [findIdxLoop] at h
  | cons a t ih =>
    by_cases hax : a = x
    · simp [findIdxLoop, hax] at h
      subst hax
      simp [← h]
    · simp [findIdxLoop, hax] at h
      obtain ⟨j, hj, rfl⟩ := h
      simpa using ih hj

/-- Helper: swapping an element with a fresh head is a permutation. -/
theorem perm_cons_set {t : List String} {j : Nat} {b a : String}
    (h : t[j]? = some b) : List.Perm (b :: t.set j a) (a :: t) := by
  induction t generalizing j with
  | nil => simp at h
  | cons c t' ih =>
    cases j with
    | zero =>
      simp at h
      subst h
      simp only [List.set_cons_zero]
      exact List.Perm.swap _ _ _
    | succ j' =>
      have h' : t'[j']? = some b := by simpa using h
      simp only [List.set_cons_succ]
      exact ((List.Perm.swap c b _).trans ((ih h').cons c)).trans
        (List.Perm.swap a c _)

/-- C6: in hedged mode, with a non-empty preferred address, the reordered
candidate set starts with the preferred node, and it is a permutation of
the original snapshot when the preferred node was already present (moved
to the front without duplication, no node excluded) and of the snapshot
with the preferred node prepended when it was absent. -/
theorem preferred_host_front (host : String) (hosts : List String)
    (hh : host ≠ "") :
    (orderHosts host hosts).head? = some host ∧
    List.Perm (orderHosts host hosts)
      (if host ∈ hosts then hosts else host :: hosts) := by
  cases hf : findIdxLoop hosts host with
  | none =>
    have hmem : host ∉ hosts := findIdxLoop_eq_none.mp hf
    simp only [orderHosts, if_neg hh, hf, if_neg hmem]
    exact ⟨rfl, List.Perm.refl _⟩
  | some idx =>
    have hget : hosts[idx]? = some host := findIdxLoop_getElem hf
    have hlt : idx < hosts.length := by
      by_contra hge
      rw [List.getElem?_eq_none (Nat.le_of_not_lt hge)] at hget
      exact Option.noConfusion hget
    have hidxval : hosts[idx] = host := by
      rw [List.getElem?_eq_getElem hlt] at hget
      exact Option.some_inj.mp hget
    have hmem : host ∈ hosts := hidxval ▸ List.getElem_mem hlt
    simp only [orderHosts, if_neg hh, hf, if_pos hmem]
    by_cases hidx : idx = 0
    · subst hidx
      rw [if_pos rfl]
      refine ⟨?_, List.Perm.refl _⟩
      cases hosts with
      | nil => simp at hlt
      | cons a t =>
        simp only [List.getElem_cons_zero] at hidxval
        simp [hidxval]
    · rw [if_neg hidx]
      obtain ⟨j, rfl⟩ : ∃ j, idx = j + 1 := ⟨idx - 1, by omega⟩
      cases hosts with
      | nil => simp at hlt
      | cons a t =>
        have hget' : t[j]? = some host := by
          rw [List.getElem?_eq_getElem (by simpa using hlt)]
          simpa [List.getElem_cons_succ] using congrArg some hidxval
        simp only [List.headD_cons, List.set_cons_succ, List.set_cons_zero]
        exact ⟨rfl, perm_cons_set hget'⟩

theorem preferred_host_front_witness :
    (orderHosts "A" ["B", "A", "C"]).head? = some "A" ∧
    List.Perm (orderHosts "A" ["B", "A", "C"])
      (if "A" ∈ (["B", "A", "C"] : List String) then ["B", "A", "C"]
       else "A" :: ["B", "A", "C"]) :=
  preferred_host_front "A" ["B", "A", "C"] (by decide)

/-- C1: in hedged mode the first delivered result carrying a decoded
envelope with code 200, 412 or 416 is terminal: the consuming loop marks
exactly that result's node `CB.Success`, fires the shared cancellation,
returns that result's data (200) or the matching domain error (412 wrong
password, 416 oauth not updated), and consumes no later result. -/
theorem first_terminal_result_wins {α : Type} (pre post : List (HResult α))
    (r : HResult α) (firstErr : Option ApiError)
    (hpre : ∀ x ∈ pre, isTerminal x = false) (hr : isTerminal r = true) :
    (hedgeConsume (pre ++ r :: post) firstErr).cancelFired = true ∧
    (hedgeConsume (pre ++ r :: post) firstErr).remaining = post ∧
    (hedgeConsume (pre ++ r :: post) firstErr).acts.filter
        CBAction.isSuccessCall = [CBAction.success r.host] ∧
    (hedgeConsume (pre ++ r :: post) firstErr).outcome =
      (if r.rc.code = funnelCodeSuccess then Sum.inl r.rc.data
       else if r.rc.code = funnelCodeWrongPassword then
         Sum.inr ApiError.NoThatPasswordOrWrong
       else Sum.inr ApiError.OAuthNotUpdate) := by
  revert hpre
  induction pre generalizing firstErr with
  | nil =>
    intro hpre
    simp only [List.nil_append]
    simp only [isTerminal, Bool.and_eq_true, decide_eq_true_eq,
      Bool.or_eq_true] at hr
    obtain ⟨he, hcode⟩ := hr
    rcases hcode with (h200 | h412) | h416
    · simp [hedgeConsume, he, h200, CBAction.isSuccessCall]
    · rw [h412]
      norm_num [hedgeConsume, he, h412, funnelCodeSuccess,
        funnelCodeWrongPassword, CBAction.isSuccessCall]
    · rw [h416]
      norm_num [hedgeConsume, he, h416, funnelCodeSuccess,
        funnelCodeWrongPassword, funnelCodeOAuthNotUpdate,
        CBAction.isSuccessCall]
  | cons x pre' ih =>
    intro hpre
    have hx : isTerminal x = false := hpre x (List.mem_cons_self x pre')
    have hpre' : ∀ y ∈ pre', isTerminal y = false :=
      fun y hy => hpre y (List.mem_cons_of_mem x hy)
    cases hxe : x.err with
    | some e =>
      cases e with
      | canceled =>
        have IH := ih firstErr hpre'
        simpa [hedgeConsume, hxe] using IH
      | requestError =>
        have IH := ih (some (firstErr.getD .ServerError)) hpre'
        obtain ⟨ih1, ih2, ih3, ih4⟩ := IH
        simp [hedgeConsume, hxe, CBAction.isSuccessCall, ih1, ih2, ih3, ih4]
    | none =>
      simp only [isTerminal, hxe, Bool.and_eq_true, decide_eq_true_eq,
        Bool.or_eq_true] at hx
      simp only [Bool.and_eq_false_iff] at hx
      have IH := ih (some (firstErr.getD .ServerError)) hpre'
      obtain ⟨ih1, ih2, ih3, ih4⟩ := IH
      rcases hx with hbad | hcode
      · simp [hxe] at hbad
      · simp only [Bool.or_eq_false_iff, decide_eq_false_iff_not] at hcode
        obtain ⟨⟨h1, h2⟩, h3⟩ := hcode
        simp [hedgeConsume, hxe, h1, h2, h3, CBAction.isSuccessCall,
          ih1, ih2, ih3, ih4]

theorem first_terminal_result_wins_witness :
    (hedgeConsume
      ([⟨"B", ⟨413, "", 0⟩, none⟩] ++
        (⟨"A", ⟨200, "", 7⟩, none⟩ : HResult Nat) ::
          [⟨"C", ⟨200, "", 9⟩, none⟩]) none).cancelFired = true ∧
    (hedgeConsume
      ([⟨"B", ⟨413, "", 0⟩, none⟩] ++
        (⟨"A", ⟨200, "", 7⟩, none⟩ : HResult Nat) ::
          [⟨"C", ⟨200, "", 9⟩, none⟩]) none).remaining
        = [⟨"C", ⟨200, "", 9⟩, none⟩] ∧
    (hedgeConsume
      ([⟨"B", ⟨413, "", 0⟩, none⟩] ++
        (⟨"A", ⟨200, "", 7⟩, none⟩ : HResult Nat) ::
          [⟨"C", ⟨200, "", 9⟩, none⟩]) none).acts.filter
        CBAction.isSuccessCall = [CBAction.success "A"] ∧
    (hedgeConsume
      ([⟨"B", ⟨413, "", 0⟩, none⟩] ++
        (⟨"A", ⟨200, "", 7⟩, none⟩ : HResult Nat) ::
          [⟨"C", ⟨200, "", 9⟩, none⟩]) none).outcome = Sum.inl 7 := by
  have h := first_terminal_result_wins (α := Nat)
    [⟨"B", ⟨413, "", 0⟩, none⟩] [⟨"C", ⟨200, "", 9⟩, none⟩]
    ⟨"A", ⟨200, "", 7⟩, none⟩ none (by decide) (by decide)
  exact ⟨h.1, h.2.1, h.2.2.1, h.2.2.2.trans (by decide)⟩

/-- C7: in single-node (non-ZF) mode the envelope code is mapped exactly
as 200 to the payload data, 412 to the wrong-password error, 416 to the
oauth-not-updated error, any other code (410, 413, 414, 415, unknown) and
any transport or decode failure to the generic `ServerError`; no
circuit-breaker action is emitted and the result is independent of the
pool snapshot and of any hedge results (no breaker state is read). -/
theorem nonhedged_code_mapping {α : Type} (api host : String)
    (snapshot : List String) (wire : Option (Option (FunnelResponse α)))
    (results : List (HResult α)) (hz : strContains api "zf" = false) :
    (FetchHandleOfPost api host snapshot wire results).acts = [] ∧
    (∀ (snapshot' : List String) (results' : List (HResult α)),
      FetchHandleOfPost api host snapshot wire results =
        FetchHandleOfPost api host snapshot' wire results') ∧
    (FetchHandleOfPost api host snapshot wire results).outcome =
      (match wire with
       | none => Sum.inr ApiError.ServerError
       | some none => Sum.inr ApiError.ServerError
       | some (some rc) =>
         if rc.code = funnelCodeSuccess then Sum.inl rc.data
         else if rc.code = funnelCodeWrongPassword then
           Sum.inr ApiError.NoThatPasswordOrWrong
         else if rc.code = funnelCodeOAuthNotUpdate then
           Sum.inr ApiError.OAuthNotUpdate
         else Sum.inr ApiError.ServerError) := by
  refine ⟨?_, ?_, ?_⟩
  · cases wire with
    | none => simp [FetchHandleOfPost, hz, singleHostRequest]
    | some w =>
      cases w with
      | none => simp [FetchHandleOfPost, hz, singleHostRequest]
      | some rc =>
        by_cases h1 : rc.code = (200 : Int) <;>
          by_cases h2 : rc.code = (412 : Int) <;>
            by_cases h3 : rc.code = (416 : Int) <;>
              norm_num [FetchHandleOfPost, hz, singleHostRequest, h1, h2, h3,
                funnelCodeSuccess, funnelCodeWrongPassword,
                funnelCodeOAuthNotUpdate]
  · intro snapshot' results'
    cases wire with
    | none => simp [FetchHandleOfPost, hz, singleHostRequest]
    | some w =>
      cases w with
      | none => simp [FetchHandleOfPost, hz, singleHostRequest]
      | some rc =>
        by_cases h1 : rc.code = (200 : Int) <;>
          by_cases h2 : rc.code = (412 : Int) <;>
            by_cases h3 : rc.code = (416 : Int) <;>
              norm_num [FetchHandleOfPost, hz, singleHostRequest, h1, h2, h3,
                funnelCodeSuccess, funnelCodeWrongPassword,
                funnelCodeOAuthNotUpdate]
  · cases wire with
    | none => simp [FetchHandleOfPost, hz, singleHostRequest]
    | some w =>
      cases w with
      | none => simp [FetchHandleOfPost, hz, singleHostRequest]
      | some rc =>
        by_cases h1 : rc.code = (200 : Int) <;>
          by_cases h2 : rc.code = (412 : Int) <;>
            by_cases h3 : rc.code = (416 : Int) <;>
              norm_num [FetchHandleOfPost, hz, singleHostRequest, h1, h2, h3,
                funnelCodeSuccess, funnelCodeWrongPassword,
                funnelCodeOAuthNotUpdate]

theorem nonhedged_code_mapping_witness :
    strContains "login" "zf" = false ∧
    (FetchHandleOfPost "login" "A" ["B"]
      (some (some ⟨413, "", (7 : Nat)⟩)) []).acts = [] ∧
    (FetchHandleOfPost "login" "A" ["B"]
      (some (some ⟨413, "", (7 : Nat)⟩)) []).outcome
        = Sum.inr ApiError.ServerError := by
  have h := nonhedged_code_mapping (α := Nat) "login" "A" ["B"]
    (some (some ⟨413, "", 7⟩)) [] (by decide)
  exact ⟨by decide, h.1, h.2.2.trans (by decide)⟩

end WeJHGo
